import Mathlib

/-!
# Verification of the search-rs result-aggregation core

Shallow embedding of the repository's core logic:

* `src/search/mod.rs` — `SearchResult` and `compute_display_path`;
* `src/search/sorter.rs` — `FileSorter`: the recency oracle
  (`get_modification_time`), the batch ranking (`sort_results`), the
  incremental merge (`merge_sorted_results`) and `add_results`;
* `src/tui/app.rs` — `App`: session state, selection movement, the
  bounded render cache (`get_cached_highlighted_line`).

Conventions of the embedding:

* `SystemTime` is modelled as `Int` (seconds relative to the Unix epoch;
  `SystemTime::UNIX_EPOCH` is `0`).  Negative values model pre-epoch times.
* All repository / filesystem I/O performed by the oracle is abstracted
  into a `GitEnv` record of pure functions: `git_blame_time p n` stands for
  the whole `get_git_line_modification_time` chain (repo open, path
  relativisation, blame, commit lookup, timestamp conversion — `none`
  models any failure along that chain, including an unopenable repo), and
  `fs_mtime p` stands for `fs::metadata(p).and_then(|m| m.modified())`.
* Rust `HashMap`s are modelled as association lists; insertion conses a
  binding in front (the code only ever inserts a key on a miss, so no
  duplicate keys arise).  `HashMap::keys()` has arbitrary iteration order;
  taking the first entries of the association list is a determinisation of
  the arbitrary choice, and no theorem below depends on which entries an
  eviction removes.
* Code that can panic (`Option::unwrap` inside `compare_results`) is
  modelled with `Option`: a `none` result marks the panic.
-/

namespace SearchRs

/-- `SearchResult` from `src/search/mod.rs`. -/
structure SearchResult where
  file_path : String
  line_number : Nat
  line_content : String
  matched_text : String
  line_colored_content : Option String
  base_dir : Option String
  display_path : String
deriving DecidableEq

/-- Rust's byte-prefix test `str::starts_with`, modelled on the character
list (for valid UTF-8, byte prefixes and character prefixes coincide). -/
def starts_with (s p : String) : Bool :=
  p.data.isPrefixOf s.data

/-- Rust's byte slicing `&s[n..]` (and the remainder of `strip_prefix`),
modelled as dropping characters; the two coincide whenever the dropped
prefix is itself a string, as in every use below. -/
def drop_chars (s : String) (n : Nat) : String :=
  String.mk (s.data.drop n)

/-- The `cleaned_path` binding of `compute_display_path`:
`if file_path.starts_with("./") { &file_path[2..] } else { file_path }`. -/
def clean_path (file_path : String) : String :=
  if starts_with file_path "./" then drop_chars file_path 2 else file_path

/-- `relative_path.strip_prefix('/').unwrap_or(relative_path)` inside
`compute_display_path`. -/
def strip_slash (relative_path : String) : String :=
  if starts_with relative_path "/" then drop_chars relative_path 1 else relative_path

/-- `SearchResult::compute_display_path` from `src/search/mod.rs`:
strip a leading `"./"`, then make the path relative to `base_dir`
when `base_dir` is a prefix of the cleaned path (`strip_prefix`, modelled
as the prefix test plus dropping the prefix length), also dropping one
separating `'/'`; otherwise return the cleaned path unchanged. -/
def compute_display_path (file_path : String) (base_dir : Option String) : String :=
  let cleaned_path := clean_path file_path
  match base_dir with
  | some base_directory =>
    if starts_with cleaned_path base_directory then
      strip_slash (drop_chars cleaned_path base_directory.length)
    else cleaned_path
  | none => cleaned_path

/-- `SearchResult::new`: the display path is computed once at construction. -/
def SearchResult.new (file_path : String) (line_number : Nat) (line_content : String)
    (matched_text : String) (line_colored_content : Option String)
    (base_dir : Option String) : SearchResult :=
  { file_path := file_path
    line_number := line_number
    line_content := line_content
    matched_text := matched_text
    line_colored_content := line_colored_content
    base_dir := base_dir
    display_path := compute_display_path file_path base_dir }

/-- The oracle's external world: all git / filesystem I/O of
`src/search/sorter.rs`, abstracted to pure lookup functions. -/
structure GitEnv where
  /-- `get_git_line_modification_time(file_path, line_number)`:
  `none` models every failure of the blame chain. -/
  git_blame_time : String → Nat → Option Int
  /-- `fs::metadata(file_path).and_then(|m| m.modified())`. -/
  fs_mtime : String → Option Int

/-- `FileSorter` from `src/search/sorter.rs`.  The `git_repo` handle lives
in `GitEnv`; the remaining fields are the mutable state. -/
structure FileSorter where
  enabled : Bool
  global_results : List SearchResult
  metadata_cache : List (String × Int)
deriving DecidableEq

namespace FileSorter

/-- `FileSorter::new` (the `Repository::open(".")` handle is part of `GitEnv`). -/
def new : FileSorter :=
  { enabled := false, global_results := [], metadata_cache := [] }

/-- `FileSorter::set_enabled`. -/
def set_enabled (s : FileSorter) (enabled : Bool) : FileSorter :=
  { s with enabled := enabled }

/-- `FileSorter::clear`. -/
def clear (s : FileSorter) : FileSorter :=
  { s with global_results := [], metadata_cache := [] }

/-- The cache key `format!("{}:{}", file_path, line_number)`. -/
def cacheKey (file_path : String) (line_number : Nat) : String :=
  file_path ++ ":" ++ toString line_number

/-- The memoized recency key of a result, when present
(`self.metadata_cache.get(&cache_key)`). -/
def mtimeOf (s : FileSorter) (r : SearchResult) : Option Int :=
  s.metadata_cache.lookup (cacheKey r.file_path r.line_number)

/-- The fallback chain of `get_modification_time` on a cache miss: git
blame time, else file metadata
(`fs::metadata(..).and_then(|m| m.modified())`), else the epoch sentinel
(`SystemTime::UNIX_EPOCH`, i.e. `0`). -/
def resolve_time (env : GitEnv) (r : SearchResult) : Int :=
  match env.git_blame_time r.file_path r.line_number with
  | some t => t
  | none =>
    match env.fs_mtime r.file_path with
    | some t => t
    | none => 0

/-- `FileSorter::get_modification_time`: memo lookup, else the git-blame /
file-metadata / epoch fallback chain, then memoize.  Total: always
returns a time. -/
def get_modification_time (env : GitEnv) (s : FileSorter) (r : SearchResult) :
    Int × FileSorter :=
  let cache_key := cacheKey r.file_path r.line_number
  match s.metadata_cache.lookup cache_key with
  | some mtime => (mtime, s)
  | none =>
    let mtime := resolve_time env r
    (mtime, { s with metadata_cache := (cache_key, mtime) :: s.metadata_cache })

/-- The memoization loop at the top of `add_results`:
`for result in &new_results { self.get_modification_time(result); }` -/
def memoize_batch (env : GitEnv) (s : FileSorter) (batch : List SearchResult) :
    FileSorter :=
  batch.foldl (fun s r => (get_modification_time env s r).2) s

/-- `FileSorter::compare_results`: both memoized times are read with
`.unwrap()`; `none` models the panic on a missing key.  The ordering is
`mtime_b.cmp(&mtime_a)` — descending by recency. -/
def compare_results (s : FileSorter) (a b : SearchResult) : Option Ordering :=
  match mtimeOf s a, mtimeOf s b with
  | some mtime_a, some mtime_b => some (compare mtime_b mtime_a)
  | _, _ => none

/-- Memoized time with a dummy default, used only to phrase the batch sort
below (inside `add_results` every batch key has just been memoized, so the
default is never read there). -/
def mtimeD (s : FileSorter) (r : SearchResult) : Int :=
  (mtimeOf s r).getD 0

/-- `FileSorter::sort_results`: `results.sort_by(|a,b| compare_results(a,b))`.
Rust's `sort_by` is a stable sort, ascending in the comparator; since the
comparator is `compare mtime_b mtime_a` this sorts descending by memoized
time.  A stable insertion sort produces the same sequence as Rust's stable
merge sort for this total preorder. -/
def sort_results (s : FileSorter) (results : List SearchResult) : List SearchResult :=
  results.insertionSort (fun a b => mtimeD s b ≤ mtimeD s a)

/-- The merge loop of `FileSorter::merge_sorted_results`, fuelled (one unit
of fuel per iteration of the `while` loop; the caller passes enough).  The
loop keeps the element of `global_results` only when the two candidates
compare `Equal`; otherwise it always takes the batch element. -/
def merge_loop (cmp : SearchResult → SearchResult → Option Ordering) :
    Nat → List SearchResult → List SearchResult → Option (List SearchResult)
  | _, [], batch => some batch
  | _, g :: gs, [] => some (g :: gs)
  | 0, _ :: _, _ :: _ => none
  | fuel + 1, g :: gs, b :: bs =>
    match cmp g b with
    | none => none
    | some o =>
      if o = Ordering.eq then
        (merge_loop cmp fuel gs (b :: bs)).map (fun rest => g :: rest)
      else
        (merge_loop cmp fuel (g :: gs) bs).map (fun rest => b :: rest)

/-- `FileSorter::merge_sorted_results`: merge the sorted batch into the
global order.  `none` models the `unwrap` panic inside `compare_results`
when a global element has no memoized key. -/
def merge_sorted_results (s : FileSorter) (sorted_batch : List SearchResult) :
    Option FileSorter :=
  (merge_loop (compare_results s)
      (s.global_results.length + sorted_batch.length)
      s.global_results sorted_batch).map
    (fun merged => { s with global_results := merged })

/-- `FileSorter::add_results`.  Returns the (ranked) batch and the new
sorter state; `none` models a panic. -/
def add_results (env : GitEnv) (s : FileSorter) (new_results : List SearchResult) :
    Option (List SearchResult × FileSorter) :=
  if !s.enabled || new_results.isEmpty then
    -- pass-through mode: extend the global order unchanged
    some (new_results, { s with global_results := s.global_results ++ new_results })
  else
    let s1 := memoize_batch env s new_results
    let sorted := sort_results s1 new_results
    if s1.global_results.isEmpty then
      some (sorted, { s1 with global_results := sorted })
    else
      (merge_sorted_results s1 sorted).map (fun s2 => (sorted, s2))

/-- A whole sequence of `add_results` calls (state only). -/
def run_add_batches (env : GitEnv) (s : FileSorter)
    (batches : List (List SearchResult)) : Option FileSorter :=
  batches.foldlM (fun s b => (add_results env s b).map Prod.snd) s

/-- Every element of the global order has a memoized recency key.  This is
the invariant that makes the `unwrap`s in `compare_results` safe. -/
def covers (s : FileSorter) : Prop :=
  ∀ r ∈ s.global_results, (mtimeOf s r).isSome

instance (s : FileSorter) : Decidable (covers s) :=
  List.decidableBAll _ s.global_results

/-- Descending-by-memoized-recency sortedness of a result list, as a
computable check (the ordering criterion of `compare_results`). -/
def sortedDescB (s : FileSorter) : List SearchResult → Bool
  | [] => true
  | [_] => true
  | a :: b :: t => (mtimeD s b ≤ mtimeD s a) && sortedDescB s (b :: t)

end FileSorter

/-- `InputFocus` from `src/tui/app.rs`. -/
inductive InputFocus where
  | Primary
  | Results
deriving DecidableEq

/-- The render-cache fingerprint: `DefaultHasher` over
`(file_path, line_number, line_content)`.  The hash itself is an external
detail; it is modelled as the (injective) triple being hashed. -/
def fingerprint (r : SearchResult) : String × Nat × String :=
  (r.file_path, r.line_number, r.line_content)

/-- `App` from `src/tui/app.rs`, restricted to the fields the modelled
operations read or write (`current_pattern`, `should_quit`, the preview
handler and the progress records are carried by the source struct but are
untouched by the operations below). -/
structure App where
  search_results : List SearchResult
  selected_index : Nat
  input_focus : InputFocus
  needs_progressive_load_check : Bool
  highlighted_cache : List ((String × Nat × String) × String)
  cache_size_limit : Nat
  sorter : FileSorter
deriving DecidableEq

namespace App

/-- `App::new`. -/
def new : App :=
  { search_results := []
    selected_index := 0
    input_focus := InputFocus.Primary
    needs_progressive_load_check := false
    highlighted_cache := []
    cache_size_limit := 1000
    sorter := FileSorter.new }

/-- `App::update_search_results` (replace-all): set the visible list to the
given results, reset the selection, clear the sorter and re-feed it the
results when non-empty.  Note: the highlighted cache is not touched. -/
def update_search_results (env : GitEnv) (a : App) (results : List SearchResult) :
    Option App :=
  let a1 := { a with search_results := results, selected_index := 0 }
  let s := a1.sorter.clear
  if results.isEmpty then some { a1 with sorter := s }
  else
    (FileSorter.add_results env s results).map (fun p => { a1 with sorter := p.2 })

/-- `App::add_sarch_results` (streaming append): feed the sorter, then
`sync_results_from_sorter` copies the sorter's global list into
`search_results`.  Empty batches return early without syncing. -/
def add_sarch_results (env : GitEnv) (a : App) (results : List SearchResult) :
    Option App :=
  if results.isEmpty then some a
  else
    (FileSorter.add_results env a.sorter results).map
      (fun p => { a with sorter := p.2, search_results := p.2.global_results })

/-- `App::add_search_result` (single-result append, `vec![result]`). -/
def add_search_result (env : GitEnv) (a : App) (result : SearchResult) : Option App :=
  (FileSorter.add_results env a.sorter [result]).map
    (fun p => { a with sorter := p.2, search_results := p.2.global_results })

/-- `App::clear_search_results`. -/
def clear_search_results (a : App) : App :=
  { a with search_results := [], selected_index := 0,
           sorter := a.sorter.clear, highlighted_cache := [] }

/-- `App::selected_result`. -/
def selected_result (a : App) : Option SearchResult :=
  a.search_results.get? a.selected_index

/-- `App::toggle_focus`. -/
def toggle_focus (a : App) : App :=
  match a.input_focus with
  | InputFocus.Primary => { a with input_focus := InputFocus.Results }
  | InputFocus.Results => { a with input_focus := InputFocus.Primary }

/-- `App::select_next`. -/
def select_next (a : App) : App :=
  if !a.search_results.isEmpty ∧ a.selected_index < a.search_results.length - 1 then
    { a with selected_index := a.selected_index + 1,
             needs_progressive_load_check := true }
  else a

/-- `App::select_previous`. -/
def select_previous (a : App) : App :=
  if a.selected_index > 0 then
    { a with selected_index := a.selected_index - 1,
             needs_progressive_load_check := true }
  else a

/-- `App::select_iindex`. -/
def select_iindex (a : App) (index : Nat) : App :=
  if index < a.search_results.length then { a with selected_index := index } else a

/-- `App::handle_results_click`.  The `u16` coordinates are modelled as
`Nat` (the subtraction is guarded by the first bounds check).  Faithfully
reproduces the source's comparison `click_index >= self.search_results.len()`
guarding the assignment. -/
def handle_results_click (a : App) (click_row results_area_top results_area_height : Nat) :
    Bool × App :=
  if click_row < results_area_top ∨ click_row ≥ results_area_top + results_area_height then
    (false, a)
  else
    let click_index := click_row - results_area_top
    if click_index ≥ a.search_results.length then
      (true, { a with selected_index := click_index })
    else
      (false, a)

/-- `App::get_cached_highlighted_line`.  `render` stands for the external
collaborator call `result.format_for_tui_display(highlighter)`; rendered
`Line` values are modelled as `String`.  On a miss the cache is evicted
first when at or over the limit (`cache_size_limit / 4` entries are
removed), then the new entry is inserted. -/
def get_cached_highlighted_line (a : App) (r : SearchResult)
    (render : SearchResult → String) : String × App :=
  let cache_key := fingerprint r
  match a.highlighted_cache.lookup cache_key with
  | some cached_line => (cached_line, a)
  | none =>
    let highlighted_line := render r
    let cache :=
      if a.cache_size_limit ≤ a.highlighted_cache.length then
        a.highlighted_cache.drop (a.cache_size_limit / 4)
      else a.highlighted_cache
    (highlighted_line, { a with highlighted_cache := (cache_key, highlighted_line) :: cache })

/-- `App::clear_highlighting_cache`. -/
def clear_highlighting_cache (a : App) : App :=
  { a with highlighted_cache := [] }

/-- A sequence of `get_cached_highlighted_line` calls (state only). -/
def run_cache (a : App) (calls : List (SearchResult × (SearchResult → String))) : App :=
  calls.foldl (fun a c => (get_cached_highlighted_line a c.1 c.2).2) a

end App

/-! ## Concrete fixtures used by the counterexamples and witnesses -/

/-- Result on path `"a"`, line 1 (oracle time 100 under `env0`). -/
def r1 : SearchResult := SearchResult.new "a" 1 "la" "m" none none

/-- Result on path `"b"`, line 1 (oracle time 50 under `env0`). -/
def r2 : SearchResult := SearchResult.new "b" 1 "lb" "m" none none

/-- Result on path `"c"`, line 1 (oracle time 75 under `env0`). -/
def r3 : SearchResult := SearchResult.new "c" 1 "lc" "m" none none

/-- A concrete oracle environment: blame times 100 / 50 / 75 for the
files of `r1` / `r2` / `r3`, no filesystem fallback. -/
def env0 : GitEnv :=
  { git_blame_time := fun p _ =>
      if p = "a" then some 100
      else if p = "b" then some 50
      else if p = "c" then some 75
      else none
    fs_mtime := fun _ => none }

/-- A fresh sorter with ranking enabled. -/
def sorter0 : FileSorter := FileSorter.new.set_enabled true

/-- A second oracle environment, disagreeing with `env0` everywhere —
used to show memoized keys survive a change of the underlying world. -/
def envX : GitEnv :=
  { git_blame_time := fun _ _ => some 999
    fs_mtime := fun _ => some 999 }

/-- A fresh session whose sorter has ranking enabled. -/
def appE : App := { App.new with sorter := sorter0 }

/-- A session holding one rendered line in the highlight cache. -/
def appC5 : App :=
  { App.new with sorter := sorter0,
                 highlighted_cache := [(fingerprint r1, "rendered r1")] }

/-- A session showing two results (selection at 0). -/
def appC10 : App := { App.new with search_results := [r1, r2] }

/-- The session state reached by appending `[r1]` to `appE` (concrete
successor state used to exhibit the visible/global synchronisation). -/
def a6 : App := (App.add_sarch_results env0 appE [r1]).getD App.new

/-- A session with cache limit 4 and a full (4-entry) render cache. -/
def appW : App :=
  { App.new with
      cache_size_limit := 4
      highlighted_cache :=
        [(("k1", 1, ""), "l1"), (("k2", 1, ""), "l2"),
         (("k3", 1, ""), "l3"), (("k4", 1, ""), "l4")] }

/-! ## Cache and merge lemmas for `FileSorter` -/

namespace FileSorter

/-- Characterization of `get_modification_time` on a cache hit. -/
theorem get_hit (env : GitEnv) (s : FileSorter) (r : SearchResult) (t : Int)
    (h : s.metadata_cache.lookup (cacheKey r.file_path r.line_number) = some t) :
    get_modification_time env s r = (t, s) := by
  simp [get_modification_time, h]

/-- Characterization of `get_modification_time` on a cache miss: it
resolves through the fallback chain and memoizes the result. -/
theorem get_miss (env : GitEnv) (s : FileSorter) (r : SearchResult)
    (h : s.metadata_cache.lookup (cacheKey r.file_path r.line_number) = none) :
    get_modification_time env s r = (resolve_time env r,
      { s with metadata_cache :=
          (cacheKey r.file_path r.line_number, resolve_time env r)
            :: s.metadata_cache }) := by
  simp [get_modification_time, h]

/-- A memoized key keeps its value across any `get_modification_time` call
(the cache is only ever extended, and only at a key that missed). -/
theorem mtimeOf_get_stable (env : GitEnv) (s : FileSorter) (r r' : SearchResult)
    (t : Int) (h : mtimeOf s r' = some t) :
    mtimeOf (get_modification_time env s r).2 r' = some t := by
  rcases hl : s.metadata_cache.lookup (cacheKey r.file_path r.line_number) with _ | v
  · rw [get_miss env s r hl]
    have hk : cacheKey r'.file_path r'.line_number
        ≠ cacheKey r.file_path r.line_number := by
      intro hk
      rw [mtimeOf, hk, hl] at h
      cases h
    have hbeq : (cacheKey r'.file_path r'.line_number
        == cacheKey r.file_path r.line_number) = false := by
      exact beq_eq_false_iff_ne.mpr hk
    simpa [mtimeOf, List.lookup, hbeq] using h
  · rw [get_hit env s r v hl]
    exact h

/-- After `get_modification_time env s r`, the key of `r` is memoized with
the returned value. -/
theorem mtimeOf_get_self (env : GitEnv) (s : FileSorter) (r : SearchResult) :
    mtimeOf (get_modification_time env s r).2 r
      = some (get_modification_time env s r).1 := by
  rcases hl : s.metadata_cache.lookup (cacheKey r.file_path r.line_number) with _ | v
  · rw [get_miss env s r hl]
    simp [mtimeOf, List.lookup]
  · rw [get_hit env s r v hl]
    exact hl

/-- `get_modification_time` only touches the cache. -/
theorem get_fields (env : GitEnv) (s : FileSorter) (r : SearchResult) :
    (get_modification_time env s r).2.global_results = s.global_results
      ∧ (get_modification_time env s r).2.enabled = s.enabled := by
  rcases hl : s.metadata_cache.lookup (cacheKey r.file_path r.line_number) with _ | v
  · rw [get_miss env s r hl]
    exact ⟨rfl, rfl⟩
  · rw [get_hit env s r v hl]
    exact ⟨rfl, rfl⟩

/-- A memoized key keeps its value across `memoize_batch`. -/
theorem mtimeOf_memoize_stable (env : GitEnv) (batch : List SearchResult) :
    ∀ (s : FileSorter) (r' : SearchResult) (t : Int), mtimeOf s r' = some t →
      mtimeOf (memoize_batch env s batch) r' = some t := by
  induction batch with
  | nil => intro s r' t h; simpa [memoize_batch] using h
  | cons b bs ih =>
    intro s r' t h
    have hstep : memoize_batch env s (b :: bs)
        = memoize_batch env (get_modification_time env s b).2 bs := by
      simp [memoize_batch]
    rw [hstep]
    exact ih _ _ _ (mtimeOf_get_stable env s b r' t h)

/-- After `memoize_batch`, every batch element has a memoized key. -/
theorem mtimeOf_memoize_isSome (env : GitEnv) (batch : List SearchResult) :
    ∀ (s : FileSorter) (r : SearchResult), r ∈ batch →
      (mtimeOf (memoize_batch env s batch) r).isSome := by
  induction batch with
  | nil => intro s r hr; cases hr
  | cons b bs ih =>
    intro s r hr
    have hstep : memoize_batch env s (b :: bs)
        = memoize_batch env (get_modification_time env s b).2 bs := by
      simp [memoize_batch]
    rw [hstep]
    rcases List.mem_cons.mp hr with h | h
    · subst h
      have := mtimeOf_memoize_stable env bs (get_modification_time env s r).2 r
        (get_modification_time env s r).1 (mtimeOf_get_self env s r)
      simp [this]
    · exact ih _ _ h

/-- `memoize_batch` only touches the cache. -/
theorem memoize_fields (env : GitEnv) (batch : List SearchResult) :
    ∀ s : FileSorter, (memoize_batch env s batch).global_results = s.global_results
      ∧ (memoize_batch env s batch).enabled = s.enabled := by
  induction batch with
  | nil => intro s; simp [memoize_batch]
  | cons b bs ih =>
    intro s
    have hstep : memoize_batch env s (b :: bs)
        = memoize_batch env (get_modification_time env s b).2 bs := by
      simp [memoize_batch]
    rw [hstep]
    rcases ih (get_modification_time env s b).2 with ⟨h1, h2⟩
    rcases get_fields env s b with ⟨h3, h4⟩
    exact ⟨h1.trans h3, h2.trans h4⟩

/-- `compare_results` succeeds on any pair of memoized results. -/
theorem compare_results_isSome (s : FileSorter) (a b : SearchResult)
    (ha : (mtimeOf s a).isSome) (hb : (mtimeOf s b).isSome) :
    (compare_results s a b).isSome := by
  rcases Option.isSome_iff_exists.mp ha with ⟨ta, ha⟩
  rcases Option.isSome_iff_exists.mp hb with ⟨tb, hb⟩
  simp [compare_results, ha, hb]

/-- Whatever the merge loop produces is a permutation of its two inputs:
each iteration moves exactly one element. -/
theorem merge_loop_perm (cmp : SearchResult → SearchResult → Option Ordering) :
    ∀ (fuel : Nat) (gs bs m : List SearchResult),
      merge_loop cmp fuel gs bs = some m → m.Perm (gs ++ bs) := by
  intro fuel
  induction fuel with
  | zero =>
    intro gs bs m h
    cases gs with
    | nil => cases h; simp
    | cons g gs =>
      cases bs with
      | nil => cases h; simp
      | cons b bs => exact absurd h (by simp [merge_loop])
  | succ n ih =>
    intro gs bs m h
    cases gs with
    | nil => cases h; simp
    | cons g gs =>
      cases bs with
      | nil => cases h; simp
      | cons b bs =>
        rcases hc : cmp g b with _ | o
        · rw [merge_loop, hc] at h
          exact absurd h (by simp)
        · rw [merge_loop, hc] at h
          simp only at h
          by_cases ho : o = Ordering.eq

          · rw [if_pos ho] at h
            rcases Option.map_eq_some'.mp h with ⟨rest, hrest, hm⟩
            subst hm
            exact (ih gs (b :: bs) rest hrest).cons g
          · rw [if_neg ho] at h
            rcases Option.map_eq_some'.mp h with ⟨rest, hrest, hm⟩
            subst hm
            exact ((ih (g :: gs) bs rest hrest).cons b).trans List.perm_middle.symm

/-- With enough fuel and all cross comparisons defined, the merge loop
succeeds. -/
theorem merge_loop_isSome (cmp : SearchResult → SearchResult → Option Ordering) :
    ∀ (fuel : Nat) (gs bs : List SearchResult),
      (∀ g ∈ gs, ∀ b ∈ bs, (cmp g b).isSome) →
      gs.length + bs.length ≤ fuel →
      (merge_loop cmp fuel gs bs).isSome := by
  intro fuel
  induction fuel with
  | zero =>
    intro gs bs hc hf
    cases gs with
    | nil => simp [merge_loop]
    | cons g gs =>
      cases bs with
      | nil => simp [merge_loop]
      | cons b bs => simp at hf
  | succ n ih =>
    intro gs bs hc hf
    cases gs with
    | nil => simp [merge_loop]
    | cons g gs =>
      cases bs with
      | nil => simp [merge_loop]
      | cons b bs =>
        rcases Option.isSome_iff_exists.mp
            (hc g (List.mem_cons_self g gs) b (List.mem_cons_self b bs)) with ⟨o, hcmp⟩
        rw [merge_loop, hcmp]
        simp only
        by_cases ho2 : o = Ordering.eq
        · rw [if_pos ho2]
          have := ih gs (b :: bs)
            (fun g2 hg2 b2 hb2 => hc g2 (List.mem_cons_of_mem g hg2) b2 hb2)
            (by simp at hf ⊢; omega)
          simpa using this
        · rw [if_neg ho2]
          have := ih (g :: gs) bs
            (fun g2 hg2 b2 hb2 => hc g2 hg2 b2 (List.mem_cons_of_mem b hb2))
            (by simp at hf ⊢; omega)
          simpa using this

/-- The batch sort is a permutation of the batch. -/
theorem sort_results_perm (s : FileSorter) (l : List SearchResult) :
    (sort_results s l).Perm l :=
  List.perm_insertionSort _ l

/-- With ranking enabled and the coverage invariant, `add_results` always
succeeds, preserves the invariant, and the new global order is a
permutation of the old one plus the batch. -/
theorem add_results_spec (env : GitEnv) (s : FileSorter) (batch : List SearchResult)
    (hen : s.enabled = true) (hcov : covers s) :
    ∃ out s2, add_results env s batch = some (out, s2) ∧
      s2.enabled = true ∧ covers s2 ∧
      s2.global_results.Perm (s.global_results ++ batch) := by
  by_cases hb : batch.isEmpty
  · refine ⟨batch, { s with global_results := s.global_results ++ batch },
      ?_, hen, ?_, List.Perm.refl _⟩
    · simp [add_results, hb]
    · intro r hr
      rcases List.mem_append.mp hr with h | h
      · exact hcov r h
      · rw [List.isEmpty_iff.mp hb] at h; cases h
  · have hb2 : batch.isEmpty = false := Bool.eq_false_iff.mpr hb
    have hcond : (!s.enabled || batch.isEmpty) = false := by
      rw [hen, hb2]; rfl
    set s1 := memoize_batch env s batch with hs1
    have hg1 : s1.global_results = s.global_results := (memoize_fields env batch s).1
    have hen1 : s1.enabled = true := (memoize_fields env batch s).2.trans hen
    set sorted := sort_results s1 batch with hsorted
    have hperm : sorted.Perm batch := sort_results_perm s1 batch
    have hsortedSome : ∀ r ∈ sorted, (mtimeOf s1 r).isSome := fun r hr =>
      mtimeOf_memoize_isSome env batch s r (hperm.mem_iff.mp hr)
    have hglobSome : ∀ r ∈ s1.global_results, (mtimeOf s1 r).isSome := by
      intro r hr
      rw [hg1] at hr
      rcases Option.isSome_iff_exists.mp (hcov r hr) with ⟨t, ht⟩
      exact Option.isSome_iff_exists.mpr ⟨t, mtimeOf_memoize_stable env batch s r t ht⟩
    by_cases hge : s1.global_results.isEmpty
    · refine ⟨sorted, { s1 with global_results := sorted }, ?_, hen1, ?_, ?_⟩
      · simp only [add_results, hcond, Bool.false_eq_true, if_false, ← hs1, ← hsorted,
          hge, if_true]
      · intro r hr; exact hsortedSome r hr
      · rw [← hg1, List.isEmpty_iff.mp hge, List.nil_append]
        exact hperm
    · have hmerge : (merge_loop (compare_results s1)
          (s1.global_results.length + sorted.length) s1.global_results sorted).isSome := by
        refine merge_loop_isSome _ _ _ _ ?_ le_rfl
        intro g hg b hbm
        exact compare_results_isSome s1 g b (hglobSome g hg) (hsortedSome b hbm)
      rcases Option.isSome_iff_exists.mp hmerge with ⟨merged, hm⟩
      have hmp : merged.Perm (s1.global_results ++ sorted) :=
        merge_loop_perm _ _ _ _ _ hm
      refine ⟨sorted, { s1 with global_results := merged }, ?_, hen1, ?_, ?_⟩
      · simp only [add_results, hcond, Bool.false_eq_true, if_false, ← hs1, ← hsorted,
          hge, if_false, merge_sorted_results, hm, Option.map_some']
      · intro r hr
        rcases List.mem_append.mp (hmp.mem_iff.mp hr) with h | h
        · exact hglobSome r h
        · exact hsortedSome r h
      · rw [← hg1]
        exact hmp.trans (List.Perm.append_left _ hperm)

/-- On an empty global order, `add_results` always succeeds (enabled or
not) and produces a global order that is a permutation of the batch. -/
theorem add_results_from_empty (env : GitEnv) (s : FileSorter)
    (batch : List SearchResult) (hg : s.global_results = []) :
    ∃ out s2, add_results env s batch = some (out, s2) ∧
      s2.global_results.Perm batch := by
  cases hen : s.enabled with
  | false =>
    refine ⟨batch, { s with global_results := s.global_results ++ batch }, ?_, ?_⟩
    · simp [add_results, hen]
    · rw [hg, List.nil_append]
  | true =>
    have hcov : covers s := by
      intro r hr; rw [hg] at hr; cases hr
    rcases add_results_spec env s batch hen hcov with ⟨out, s2, hadd, _, _, hperm⟩
    refine ⟨out, s2, hadd, ?_⟩
    rw [hg, List.nil_append] at hperm
    exact hperm

end FileSorter

/-! ## Render-cache lemmas for `App` -/

namespace App

/-- `get_cached_highlighted_line` never changes the cache limit (or the
other session fields). -/
theorem cache_step_limit (a : App) (r : SearchResult) (render : SearchResult → String) :
    (get_cached_highlighted_line a r render).2.cache_size_limit = a.cache_size_limit := by
  rcases hl : a.highlighted_cache.lookup (fingerprint r) with _ | v <;>
    simp [get_cached_highlighted_line, hl]

/-- One `get_cached_highlighted_line` call keeps the cache within its
limit, provided the limit is at least 4 (so that an eviction removes at
least one entry; the source's configured limit is 1000). -/
theorem cache_step_len (a : App) (r : SearchResult) (render : SearchResult → String)
    (h4 : 4 ≤ a.cache_size_limit)
    (hlen : a.highlighted_cache.length ≤ a.cache_size_limit) :
    (get_cached_highlighted_line a r render).2.highlighted_cache.length
      ≤ a.cache_size_limit := by
  rcases hl : a.highlighted_cache.lookup (fingerprint r) with _ | v
  · by_cases hfull : a.cache_size_limit ≤ a.highlighted_cache.length
    · have hdiv1 : 1 ≤ a.cache_size_limit / 4 :=
        (Nat.one_le_div_iff (by norm_num)).mpr h4
      have hdiv2 : a.cache_size_limit / 4 ≤ a.cache_size_limit :=
        Nat.div_le_self _ _
      simp only [get_cached_highlighted_line, hl, if_pos hfull, List.length_cons,
        List.length_drop]
      omega
    · simp only [get_cached_highlighted_line, hl, if_neg hfull, List.length_cons]
      omega
  · simp [get_cached_highlighted_line, hl, hlen]

/-- The eviction arithmetic of the triggering insert: when the cache is at
or over the limit and the fingerprint misses, exactly
`cache_size_limit / 4` entries are removed, then one is inserted. -/
theorem cache_step_evict (a : App) (r : SearchResult) (render : SearchResult → String)
    (hover : a.cache_size_limit ≤ a.highlighted_cache.length)
    (hmiss : a.highlighted_cache.lookup (fingerprint r) = none) :
    (get_cached_highlighted_line a r render).2.highlighted_cache.length
        + a.cache_size_limit / 4
      = a.highlighted_cache.length + 1 := by
  have hdiv2 : a.cache_size_limit / 4 ≤ a.cache_size_limit := Nat.div_le_self _ _
  simp only [get_cached_highlighted_line, hmiss, if_pos hover, List.length_cons,
    List.length_drop]
  omega

/-- Any sequence of `get_cached_highlighted_line` calls keeps the cache
within its limit. -/
theorem run_cache_bound (calls : List (SearchResult × (SearchResult → String))) :
    ∀ a : App, 4 ≤ a.cache_size_limit →
      a.highlighted_cache.length ≤ a.cache_size_limit →
      (run_cache a calls).highlighted_cache.length ≤ a.cache_size_limit
        ∧ (run_cache a calls).cache_size_limit = a.cache_size_limit := by
  induction calls with
  | nil => intro a _ hlen; exact ⟨hlen, rfl⟩
  | cons c cs ih =>
    intro a h4 hlen
    have hstep : run_cache a (c :: cs)
        = run_cache (get_cached_highlighted_line a c.1 c.2).2 cs := by
      simp [run_cache]
    have hlim := cache_step_limit a c.1 c.2
    have hnext := ih (get_cached_highlighted_line a c.1 c.2).2
      (hlim ▸ h4) (hlim ▸ cache_step_len a c.1 c.2 h4 hlen)
    rw [hstep]
    exact ⟨hlim ▸ hnext.1, hnext.2.trans hlim⟩

end App

/-! ## Claim theorems -/

/-- Claim C1, evaluated at the failing input: the merge of a ranked batch
into a sorted non-empty global order does NOT yield a sequence sorted
descending by recency key.  With oracle times 100 / 50 / 75 for
`r1` / `r2` / `r3`, adding `[r1, r2]` and then `[r3]` with ranking enabled
produces the global order `[r3, r1, r2]` (times 75, 100, 50) — not
descending.  The merge loop advances the global cursor only on an `Equal`
comparison and otherwise always takes the batch element; the intended
order is `[r1, r3, r2]`. -/
theorem c1_merge_unsorted_eval :
    ((FileSorter.add_results env0 sorter0 [r1, r2]).bind
        (fun p => FileSorter.add_results env0 p.2 [r3])).map
      (fun p => (p.2.global_results, FileSorter.sortedDescB p.2 p.2.global_results))
      = some ([r3, r1, r2], false) := by decide

/-- Claim C2, evaluated at the failing input: with identical oracle
answers, `add_batch(A); add_batch(B)` and `add_batch(B); add_batch(A)`
leave different final global orders.  With times 100 for `r1` and 50 for
`r2`: `[r1]` then `[r2]` gives `[r2, r1]`, while `[r2]` then `[r1]` gives
`[r1, r2]`. -/
theorem c2_order_dependence_eval :
    (((FileSorter.add_results env0 sorter0 [r1]).bind
        (fun p => FileSorter.add_results env0 p.2 [r2])).map
      (fun p => p.2.global_results) = some [r2, r1])
    ∧ (((FileSorter.add_results env0 sorter0 [r2]).bind
        (fun p => FileSorter.add_results env0 p.2 [r1])).map
      (fun p => p.2.global_results) = some [r1, r2])
    ∧ ([r2, r1] : List SearchResult) ≠ [r1, r2] := by decide

/-- Claim C3: for any two batches A, B added (in either order — A and B
are arbitrary) into an empty enabled aggregator, both calls succeed and
the final global order has exactly `|A| + |B|` elements and is a
permutation of `A ++ B` — the merge drops and duplicates nothing. -/
theorem c3_merge_totality (env : GitEnv) (s : FileSorter)
    (A B : List SearchResult) (hen : s.enabled = true)
    (hg : s.global_results = []) :
    ∃ out1 s1 out2 s2,
      FileSorter.add_results env s A = some (out1, s1)
      ∧ FileSorter.add_results env s1 B = some (out2, s2)
      ∧ s2.global_results.length = A.length + B.length
      ∧ s2.global_results.Perm (A ++ B) := by
  have hcov : FileSorter.covers s := by
    intro r hr; rw [hg] at hr; cases hr
  rcases FileSorter.add_results_spec env s A hen hcov with
    ⟨out1, s1, h1, hen1, hcov1, hperm1⟩
  rcases FileSorter.add_results_spec env s1 B hen1 hcov1 with
    ⟨out2, s2, h2, _, _, hperm2⟩
  rw [hg, List.nil_append] at hperm1
  have hperm : s2.global_results.Perm (A ++ B) :=
    hperm2.trans (hperm1.append_right B)
  exact ⟨out1, s1, out2, s2, h1, h2,
    by rw [hperm.length_eq, List.length_append], hperm⟩

/-- Witness for C3 at a concrete input: two singleton batches into the
fresh enabled sorter give a 2-element global order. -/
theorem c3_witness :
    ((FileSorter.add_results env0 sorter0 [r1]).bind
        (fun p => FileSorter.add_results env0 p.2 [r2])).map
      (fun p => p.2.global_results.length) = some 2 := by
  rcases c3_merge_totality env0 sorter0 [r1] [r2] rfl rfl with
    ⟨o1, s1, o2, s2, h1, h2, hlen, _⟩
  rw [h1]
  simp [Option.bind, h2, hlen]

/-- Claim C4 counterexample: toggling ranking on after a pass-through
addition panics.  With ranking disabled, add `[r1]` (no memoization);
enable ranking; add `[r2]`: the merge compares `r2` against the
unmemoized `r1`, and the `unwrap` inside `compare_results` fails
(modelled as `none`). -/
theorem c4_toggle_panic :
    ((FileSorter.add_results env0 (FileSorter.new.set_enabled false) [r1]).bind
        (fun p => FileSorter.add_results env0 (p.2.set_enabled true) [r2]))
      = none := by decide

/-- Claim C4 amended: as long as ranking stays enabled and every element
of the global order has a memoized recency key (true of a fresh or
cleared sorter, and preserved by every enabled call), any sequence of
`add_results` calls succeeds: every recency lookup degrades through the
fallback chain and the `unwrap`s on memoized values are unreachable. -/
theorem c4_no_panic_when_enabled (env : GitEnv) (s : FileSorter)
    (batches : List (List SearchResult)) (hen : s.enabled = true)
    (hcov : FileSorter.covers s) :
    (FileSorter.run_add_batches env s batches).isSome := by
  induction batches generalizing s with
  | nil => simp [FileSorter.run_add_batches]
  | cons b bs ih =>
    rcases FileSorter.add_results_spec env s b hen hcov with
      ⟨out, s2, hadd, hen2, hcov2, _⟩
    have hstep : FileSorter.run_add_batches env s (b :: bs)
        = FileSorter.run_add_batches env s2 bs := by
      simp [FileSorter.run_add_batches, hadd]
    rw [hstep]
    exact ih s2 hen2 hcov2

/-- Witness for C4 (amended) at a concrete input: three enabled batches
from the fresh enabled sorter. -/
theorem c4_witness :
    (FileSorter.run_add_batches env0 sorter0 [[r1], [r2], [r3]]).isSome :=
  c4_no_panic_when_enabled env0 sorter0 [[r1], [r2], [r3]] (by decide) (by decide)

/-- Claim C5 counterexample: `update_search_results` does not clear the
render cache — the cached line of `appC5` survives the replace. -/
theorem c5_cache_not_cleared :
    (App.update_search_results env0 appC5 [r2]).map
      (fun a2 => a2.highlighted_cache.isEmpty) = some false := by decide

/-- Claim C5 amended: after every `update_search_results` the selection
index is 0, the visible list is exactly the given results, and the sorter
has been cleared and repopulated from exactly the given results (its
global order is a permutation of them); the render cache however is left
unchanged, not emptied. -/
theorem c5_replace_spec (env : GitEnv) (a : App) (results : List SearchResult) :
    ∃ a2, App.update_search_results env a results = some a2
      ∧ a2.selected_index = 0
      ∧ a2.search_results = results
      ∧ a2.highlighted_cache = a.highlighted_cache
      ∧ a2.sorter.global_results.Perm results := by
  by_cases he : results.isEmpty
  · refine ⟨{ a with search_results := results, selected_index := 0, sorter := a.sorter.clear }, ?_, rfl, rfl, rfl, ?_⟩
    · simp [App.update_search_results, he]
    · rw [List.isEmpty_iff.mp he]
      exact List.Perm.refl _
  · rcases FileSorter.add_results_from_empty env a.sorter.clear results rfl with
      ⟨out, s2, hadd, hperm⟩
    refine ⟨{ a with search_results := results, selected_index := 0, sorter := s2 }, ?_, rfl, rfl, rfl, hperm⟩
    simp [App.update_search_results, he, hadd]

/-- Claim C6 counterexample: after a replace with ranking enabled, the
visible list keeps the raw argument order `[r2, r1]` while the sorter's
global order is the ranked `[r1, r2]` — the two sequences differ. -/
theorem c6_replace_desync :
    (App.update_search_results env0 appE [r2, r1]).map
      (fun a2 => (a2.search_results, a2.sorter.global_results))
      = some ([r2, r1], [r1, r2])
    ∧ ([r2, r1] : List SearchResult) ≠ [r1, r2] := by decide

/-- Claim C6 amended: after every append (`add_sarch_results` with a
non-empty batch, or `add_search_result`), the visible list equals the
sorter's authoritative global order element for element; the replace
operation instead sets the visible list to its raw argument and can
desynchronize it from the ranked global order. -/
theorem c6_append_syncs (env : GitEnv) (a : App) :
    (∀ results a2, results ≠ [] →
      App.add_sarch_results env a results = some a2 →
      a2.search_results = a2.sorter.global_results)
    ∧ (∀ r a2, App.add_search_result env a r = some a2 →
      a2.search_results = a2.sorter.global_results) := by
  constructor
  · intro results a2 hne h
    have he : results.isEmpty = false := by
      cases results with
      | nil => exact absurd rfl hne
      | cons x xs => rfl
    rw [App.add_sarch_results, he] at h
    simp only [Bool.false_eq_true, if_false, Option.map_eq_some'] at h
    rcases h with ⟨p, _, ha2⟩
    rw [← ha2]
  · intro r a2 h
    rw [App.add_search_result] at h
    simp only [Option.map_eq_some'] at h
    rcases h with ⟨p, _, ha2⟩
    rw [← ha2]

/-- Witness for C6 (amended) at a concrete input: appending `[r1]` to the
fresh enabled session leaves the visible list equal to the sorter's
global order. -/
theorem c6_witness :
    App.add_sarch_results env0 appE [r1] = some a6
    ∧ a6.search_results = a6.sorter.global_results := by
  have h : App.add_sarch_results env0 appE [r1] = some a6 := by decide
  exact ⟨h, (c6_append_syncs env0 appE).1 [r1] a6 (by decide) h⟩

/-- Claim C7: over any sequence of render-cache calls from a state within
its limit (limit at least 4 and divisible by 4, as the configured limit
1000 is), the cache size never exceeds the limit; and the insert that
finds the cache at or over the limit first evicts `cache_size_limit / 4`
entries — exactly one quarter of the entries present — before inserting
the new one. -/
theorem c7_cache_bound (a : App) (h4 : 4 ≤ a.cache_size_limit)
    (hq : a.cache_size_limit % 4 = 0)
    (hlen : a.highlighted_cache.length ≤ a.cache_size_limit) :
    (∀ calls, (App.run_cache a calls).highlighted_cache.length ≤ a.cache_size_limit)
    ∧ (∀ r render, a.cache_size_limit ≤ a.highlighted_cache.length →
        a.highlighted_cache.lookup (fingerprint r) = none →
        (App.get_cached_highlighted_line a r render).2.highlighted_cache.length
            + a.cache_size_limit / 4 = a.highlighted_cache.length + 1
          ∧ 4 * (a.cache_size_limit / 4) = a.highlighted_cache.length) := by
  constructor
  · intro calls
    exact (App.run_cache_bound calls a h4 hlen).1
  · intro r render hover hmiss
    refine ⟨App.cache_step_evict a r render hover hmiss, ?_⟩
    have hfull : a.highlighted_cache.length = a.cache_size_limit :=
      le_antisymm hlen hover
    rw [hfull]
    omega

/-- Witness for C7 at a concrete input: session `appW` (limit 4, cache
full with 4 entries); a call on the fresh fingerprint of `r3` stays in
bounds and performs the quarter eviction. -/
theorem c7_witness :
    (App.run_cache appW [(r3, fun _ => "z")]).highlighted_cache.length
        ≤ appW.cache_size_limit
    ∧ (App.get_cached_highlighted_line appW r3 (fun _ => "z")).2.highlighted_cache.length
          + appW.cache_size_limit / 4
        = appW.highlighted_cache.length + 1 := by
  have h := c7_cache_bound appW (by decide) (by decide) (by decide)
  exact ⟨h.1 [(r3, fun _ => "z")],
    (h.2 r3 (fun _ => "z") (by decide) (by decide)).1⟩

/-- Claim C8: `compute_display_path` is a pure total function of
(path, base directory); a leading `"./"` is always stripped first (the
cleaned path feeds both branches); with no base directory, or when the
base directory is not a prefix of the cleaned path, the cleaned path is
returned unchanged; when it is a prefix, the result is the path made
relative to it; and the three specified examples evaluate as claimed. -/
theorem c8_display_path :
    (compute_display_path "./src/main.x" none = "src/main.x"
      ∧ compute_display_path "./src/main.x" (some "src") = "main.x"
      ∧ compute_display_path "tmp/main.x" (some "src") = "tmp/main.x")
    ∧ (∀ fp, compute_display_path fp none = clean_path fp)
    ∧ (∀ fp base, starts_with (clean_path fp) base = false →
        compute_display_path fp (some base) = clean_path fp)
    ∧ (∀ fp base, starts_with (clean_path fp) base = true →
        compute_display_path fp (some base)
          = strip_slash (drop_chars (clean_path fp) base.length)) := by
  refine ⟨⟨by decide, by decide, by decide⟩, fun fp => rfl, ?_, ?_⟩
  · intro fp base h
    simp [compute_display_path, h]
  · intro fp base h
    simp [compute_display_path, h]

/-- Witness for C8 at a concrete input where the base directory is not a
prefix. -/
theorem c8_witness :
    compute_display_path "x/y" (some "z") = clean_path "x/y" :=
  c8_display_path.2.2.1 "x/y" "z" (by decide)

/-- Claim C9: the recency oracle is total and memoizing.  A second call
for the same (path, line) key — even through a different result object
and with a changed underlying world `env2` — returns the identical time
and leaves the state unchanged; and on a cache miss the returned time
degrades through git blame, then filesystem metadata, then the epoch
sentinel 0. -/
theorem c9_oracle (env1 env2 : GitEnv) (s : FileSorter) (r rb : SearchResult)
    (hp : rb.file_path = r.file_path) (hn : rb.line_number = r.line_number) :
    (FileSorter.get_modification_time env2
        (FileSorter.get_modification_time env1 s r).2 rb
      = ((FileSorter.get_modification_time env1 s r).1,
         (FileSorter.get_modification_time env1 s r).2))
    ∧ (FileSorter.mtimeOf s r = none →
        (∀ t, env1.git_blame_time r.file_path r.line_number = some t →
          (FileSorter.get_modification_time env1 s r).1 = t)
        ∧ (env1.git_blame_time r.file_path r.line_number = none →
            (∀ t, env1.fs_mtime r.file_path = some t →
              (FileSorter.get_modification_time env1 s r).1 = t)
            ∧ (env1.fs_mtime r.file_path = none →
                (FileSorter.get_modification_time env1 s r).1 = 0))) := by
  constructor
  · have hkey : FileSorter.cacheKey rb.file_path rb.line_number
        = FileSorter.cacheKey r.file_path r.line_number := by rw [hp, hn]
    have hlook : (FileSorter.get_modification_time env1 s r).2.metadata_cache.lookup
          (FileSorter.cacheKey rb.file_path rb.line_number)
        = some (FileSorter.get_modification_time env1 s r).1 := by
      rw [hkey]
      exact FileSorter.mtimeOf_get_self env1 s r
    exact FileSorter.get_hit env2 _ rb _ hlook
  · intro hmiss
    rw [FileSorter.get_miss env1 s r hmiss]
    refine ⟨?_, ?_⟩
    · intro t hgit
      simp [FileSorter.resolve_time, hgit]
    · intro hgit
      refine ⟨?_, ?_⟩
      · intro t hfs
        simp [FileSorter.resolve_time, hgit, hfs]
      · intro hfs
        simp [FileSorter.resolve_time, hgit, hfs]

/-- Witness for C9 at a concrete input: after memoizing `r1` under
`env0` (blame time 100), a repeat lookup under the disagreeing `envX`
still returns 100 and does not touch the state. -/
theorem c9_witness :
    FileSorter.get_modification_time envX
        (FileSorter.get_modification_time env0 FileSorter.new r1).2 r1
      = ((FileSorter.get_modification_time env0 FileSorter.new r1).1,
         (FileSorter.get_modification_time env0 FileSorter.new r1).2)
    ∧ (FileSorter.get_modification_time env0 FileSorter.new r1).1 = 100 := by
  exact ⟨(c9_oracle env0 envX FileSorter.new r1 r1 rfl rfl).1, by decide⟩

/-- Claim C10, evaluated at the failing input: `handle_results_click`
uses an inverted bounds check (`click_index >= len` guards the
assignment), so a click on a row beyond the list sets the selection out
of range: with two results and a click on relative row 3 the call reports
`true` and sets `selected_index = 3 ≥ 2`, breaking the selection
invariant, and `selected_result` then returns `none` although results
exist (while a click on a real row leaves the selection unchanged). -/
theorem c10_click_eval :
    (App.handle_results_click appC10 5 2 10).1 = true
    ∧ (App.handle_results_click appC10 5 2 10).2.selected_index = 3
    ∧ appC10.search_results.length = 2
    ∧ (App.handle_results_click appC10 5 2 10).2.selected_result = none
    ∧ (App.handle_results_click appC10 2 2 10).1 = false
    ∧ (App.handle_results_click appC10 2 2 10).2.selected_index = 0 := by
  decide

end SearchRs
